import Mathlib

/-!
Verification development for the embedded-map-file-analyzer core:
the map-file parser (`parseMapFile`), the section aggregator
(`aggregateSections`), the summary comparer (`compareAnalyses`), the
version differ (`computeMemoryDiff`) and the TTL result cache
(`storeComparison` / `getComparison`).

The JavaScript sources are embedded shallowly:

* JS arrays become `List`, objects become structures, `null`/`undefined`
  become `Option`.
* JS `Map` iteration/overwrite semantics are modelled by association
  lists with last-write-wins lookup (`jsMapGet`) and first-occurrence
  key order (`jsSetDedup` for `Set`).
* JS numbers are modelled by `Nat` (sizes, byte counts), `Int` (deltas)
  and `ℚ` (percentages); `x.toFixed(2)` followed by `parseFloat` is
  modelled by exact rounding to two decimals (`round2`).
* `Array.prototype.sort` is stable in JS; it is modelled by
  `List.insertionSort`, which is stable.
* String-returning anomaly "reason" messages are modelled by inductive
  reason constructors carrying the numeric payload of the message.
-/

/-! ## JS string and collection primitives -/

/-- JS `String.prototype.split(sep)` on a single-character separator,
working on the character list (keeps empty fields, as JS does). -/
def splitOnCharAux (sep : Char) : List Char → List Char → List (List Char)
  | [], cur => [cur.reverse]
  | c :: cs, cur =>
    if c = sep then cur.reverse :: splitOnCharAux sep cs []
    else splitOnCharAux sep cs (c :: cur)

/-- JS `s.split(sep)` for one-character `sep`. -/
def splitOnChar (sep : Char) (cs : List Char) : List (List Char) :=
  splitOnCharAux sep cs []

/-- JS whitespace class `\s` (modelled by Lean's whitespace predicate). -/
def isJsWs (c : Char) : Bool := c.isWhitespace

/-- JS `String.prototype.trim`. -/
def jsTrim (cs : List Char) : List Char :=
  ((cs.dropWhile isJsWs).reverse.dropWhile isJsWs).reverse

/-- JS `String.prototype.startsWith`. -/
def jsStartsWith (s pre : String) : Bool :=
  pre.toList.isPrefixOf s.toList

/-- JS `new Set(list)` insertion order: first occurrence of each element,
in order of first appearance. -/
def jsSetDedup (l : List String) : List String :=
  l.foldl (fun acc a => if a ∈ acc then acc else acc ++ [a]) []

/-- JS `x || null` on a nullable string: the empty string is falsy and
collapses to `null`. -/
def jsTruthyStr : Option String → Option String
  | some s => if s = "" then none else some s
  | none => none

/-- JS `parseFloat(x.toFixed(2))`: round to two decimal places. -/
def round2 (q : ℚ) : ℚ := ((round (q * 100) : ℤ) : ℚ) / 100

/-- Hexadecimal digit class `[0-9a-fA-F]`. -/
def isHexChar (c : Char) : Bool :=
  c.isDigit || ('a' ≤ c && c ≤ 'f') || ('A' ≤ c && c ≤ 'F')

/-- Value of one hexadecimal digit. -/
def hexDigitVal (c : Char) : Nat :=
  if c.isDigit then c.toNat - '0'.toNat
  else if 'a' ≤ c && c ≤ 'f' then c.toNat - 'a'.toNat + 10
  else c.toNat - 'A'.toNat + 10

/-- JS `parseInt(digits, 16)` on a string of hex digits. -/
def hexToNat (ds : List Char) : Nat :=
  ds.foldl (fun acc c => acc * 16 + hexDigitVal c) 0

/-! ## Data model

`Section` objects produced by the parser (`{name, address, size, filePath}`). -/

structure MapSection where
  name : String
  address : Option String := none
  size : Nat
  filePath : Option String := none
deriving Repr, DecidableEq

/-- `ParsedResult`. Only the `sections` list is modelled; the `memory`
table produced by the same parser is not consumed by any of the
comparison/aggregation code verified here. -/
structure ParsedResult where
  sections : List MapSection
deriving Repr, DecidableEq

/-! ## MapFileParser (`parseMapFile`)

The section-line regex is
`^\s*(\.[a-zA-Z0-9_\.]+)\s+0x([0-9a-fA-F]+)\s+0x([0-9a-fA-F]+)(?:\s+(.+))?`.
All its character classes are disjoint from `\s` and from the literal
characters that follow them, so the regex matches by maximal munch with
no backtracking, except in the optional trailing-path group when the
tail is all whitespace, where the capture trims to the empty string. -/

/-- Character class `[a-zA-Z0-9_\.]` of the section-name group. -/
def isNameChar (c : Char) : Bool := c.isAlphanum || c = '_' || c = '.'

/-- `\s+`: at least one whitespace character, consumed greedily. -/
def dropWsPlus : List Char → Option (List Char)
  | c :: rest => if isJsWs c then some (rest.dropWhile isJsWs) else none
  | [] => none

/-- JS `s.split(sep).pop()`: the substring after the last separator. -/
def lastSegment (sep : Char) (s : String) : String :=
  String.mk ((splitOnChar sep s.toList).getLastD [])

/-- Basename extraction of `parseMapFile`: strip `/`-style then
`\`-style directory components, each step guarded by `filePath &&
filePath.includes(sep)`. -/
def basename (s0 : String) : String :=
  let s1 := if s0 ≠ "" ∧ '/' ∈ s0.toList then lastSegment '/' s0 else s0
  if s1 ≠ "" ∧ '\\' ∈ s1.toList then lastSegment '\\' s1 else s1

/-- Match one line against the section-line regex and build the section
object (`name`, `address`, `size = parseInt(sizeHex, 16)`, trimmed
basename `filePath`, with `filePath || null`). -/
def matchSectionLine (line : String) : Option MapSection :=
  match line.toList.dropWhile isJsWs with
  | '.' :: r1 =>
    let nameChars := r1.takeWhile isNameChar
    if nameChars.isEmpty then none else
    match dropWsPlus (r1.dropWhile isNameChar) with
    | some ('0' :: 'x' :: r3) =>
      let addrDigits := r3.takeWhile isHexChar
      if addrDigits.isEmpty then none else
      match dropWsPlus (r3.dropWhile isHexChar) with
      | some ('0' :: 'x' :: r5) =>
        let sizeDigits := r5.takeWhile isHexChar
        if sizeDigits.isEmpty then none else
        let r6 := r5.dropWhile isHexChar
        let filePath0 : String :=
          match r6 with
          | c :: _ => if isJsWs c then String.mk (jsTrim r6) else ""
          | [] => ""
        let filePath1 := basename filePath0
        some { name := String.mk ('.' :: nameChars)
               address := some (String.mk ('0' :: 'x' :: addrDigits))
               size := hexToNat sizeDigits
               filePath := if filePath1 = "" then none else some filePath1 }
      | _ => none
    | _ => none
  | _ => none

/-- The line scan of `parseMapFile`: split the content on newlines,
match each line, and keep only non-zero-sized matches, in scan order. -/
def scanSections (content : String) : List MapSection :=
  (((splitOnChar '\n' content.toList).map String.mk).filterMap
    matchSectionLine).filter (fun s => 0 < s.size)

/-- Descending-size comparator `(a, b) => b.size - a.size` of the JS
stable sort: `a` may precede `b` when `b.size ≤ a.size`. -/
def sizeGE (a b : MapSection) : Prop := b.size ≤ a.size

instance : DecidableRel sizeGE :=
  fun a b => inferInstanceAs (Decidable (b.size ≤ a.size))

instance : IsTotal MapSection sizeGE := ⟨fun a b => le_total b.size a.size⟩

instance : IsTrans MapSection sizeGE := ⟨fun _ _ _ hab hbc => le_trans hbc hab⟩

/-- `parseMapFile`: scan the section lines, then
`sections.sort((a, b) => b.size - a.size)` (stable). -/
def parseMapFile (content : String) : ParsedResult :=
  { sections := List.insertionSort sizeGE (scanSections content) }

/-! ## SectionAggregator (`aggregateSections`)

Backend version (`utils/parseMapFile.js`): groups by
`section.name.split('.').slice(0, 2).join('.')`. Because a leading dot
produces an empty first field, this key is `"." ++ firstSegment` for
dot-prefixed names. -/

structure AggSection where
  name : String
  size : Nat
  subsections : Nat
  filePath : Option String := none
deriving Repr, DecidableEq

/-- JS `Array.prototype.join(sep)` for a one-character separator. -/
def joinWithChar (sep : Char) : List (List Char) → List Char
  | [] => []
  | [x] => x
  | x :: xs => x ++ sep :: joinWithChar sep xs

/-- `section.name.split('.').slice(0, 2).join('.')`. -/
def parentName (name : String) : String :=
  String.mk (joinWithChar '.' ((splitOnChar '.' name.toList).take 2))

/-- Frontend variant (`sectionUtils.ts`):
`parts.length > 2 ? parts.slice(0, 2).join('.') : section.name`. -/
def parentNameFrontend (name : String) : String :=
  let parts := splitOnChar '.' name.toList
  if 2 < parts.length then String.mk (joinWithChar '.' (parts.take 2))
  else name

/-- One `Map.set` step of the aggregation loop: update the (unique)
existing group for this section's parent name, or insert a fresh group
`{name: parentName, size, subsections: 1, filePath: null}`. -/
def aggBump : List AggSection → MapSection → List AggSection
  | [], s =>
    [{ name := parentName s.name, size := s.size, subsections := 1,
       filePath := none }]
  | g :: gs, s =>
    if g.name = parentName s.name then
      { g with size := g.size + s.size,
               subsections := g.subsections + 1 } :: gs
    else g :: aggBump gs s

/-- Descending-size comparator on aggregated groups. -/
def aggSizeGE (a b : AggSection) : Prop := b.size ≤ a.size

instance : DecidableRel aggSizeGE :=
  fun a b => inferInstanceAs (Decidable (b.size ≤ a.size))

instance : IsTotal AggSection aggSizeGE := ⟨fun a b => le_total b.size a.size⟩

instance : IsTrans AggSection aggSizeGE := ⟨fun _ _ _ hab hbc => le_trans hbc hab⟩

/-- `aggregateSections` (backend): fold the insertion-ordered `Map`,
then sort groups by size descending. -/
def aggregateSections (sections : List MapSection) : List AggSection :=
  List.insertionSort aggSizeGE (sections.foldl aggBump [])

/-! ## SummaryComparer (`compareAnalyses`) -/

inductive SectionStatus
  | added
  | removed
  | modified
deriving Repr, DecidableEq

structure SectionDiff where
  name : String
  file : Option String
  addressA : Option String
  addressB : Option String
  sizeA : Nat
  sizeB : Nat
  delta : Int
  deltaPct : ℚ
  status : SectionStatus
deriving Repr, DecidableEq

structure CompareOptions where
  topN : Nat := 20
  anomalyThresholdPct : ℚ := 20
  anomalyThresholdBytes : Nat := 1024
  includeUnchanged : Bool := false
deriving Repr

/-- `new Map(list.map(s => [s.name, s])).get(n)`: last write wins. -/
def jsMapGet (l : List MapSection) (n : String) : Option MapSection :=
  l.foldl (fun acc s => if s.name = n then some s else acc) none

/-- Union of the two maps' keys, in JS `Set` insertion order. -/
def allSectionNames (A B : ParsedResult) : List String :=
  jsSetDedup (A.sections.map (fun s => s.name) ++
    B.sections.map (fun s => s.name))

/-- The section diff built for one name in the `compareAnalyses` loop. -/
def mkSectionDiff (name : String) (secA secB : Option MapSection) :
    SectionDiff :=
  let sizeA : Nat := (secA.map (fun s => s.size)).getD 0
  let sizeB : Nat := (secB.map (fun s => s.size)).getD 0
  let delta : Int := (sizeB : Int) - (sizeA : Int)
  let deltaPctRaw : ℚ :=
    if 0 < sizeA then ((delta : ℚ) / (sizeA : ℚ)) * 100
    else if 0 < sizeB then 100 else 0
  { name := name
    file := (jsTruthyStr (secB.bind (fun s => s.filePath))).or
      (jsTruthyStr (secA.bind (fun s => s.filePath)))
    addressA := jsTruthyStr (secA.bind (fun s => s.address))
    addressB := jsTruthyStr (secB.bind (fun s => s.address))
    sizeA := sizeA
    sizeB := sizeB
    delta := delta
    deltaPct := round2 deltaPctRaw
    status :=
      if sizeA = 0 then .added
      else if sizeB = 0 then .removed
      else .modified }

/-- The `sectionDiffs` list: one diff per unique name, skipping
`delta == 0` entries unless `includeUnchanged`. -/
def sectionDiffs (A B : ParsedResult) (opts : CompareOptions) :
    List SectionDiff :=
  ((allSectionNames A B).map (fun n =>
    mkSectionDiff n (jsMapGet A.sections n) (jsMapGet B.sections n))).filter
    (fun d => opts.includeUnchanged || !(d.delta == 0))

structure FileGroup where
  file : String
  sizeA : Nat
  sizeB : Nat
  delta : Int
  deltaPct : ℚ
  sectionCount : Nat
  sections : List String
deriving Repr, DecidableEq

/-- Add one section diff into a file group record. -/
def addToFileGroup (g : FileGroup) (d : SectionDiff) : FileGroup :=
  { g with sizeA := g.sizeA + d.sizeA
           sizeB := g.sizeB + d.sizeB
           delta := g.delta + d.delta
           sectionCount := g.sectionCount + 1
           sections := g.sections ++ [d.name] }

/-- One step of the file-group loop, keyed by
`section.file || 'unknown'`. -/
def fileGroupBump : List FileGroup → SectionDiff → List FileGroup
  | [], d =>
    [addToFileGroup
      { file := d.file.getD "unknown", sizeA := 0, sizeB := 0, delta := 0,
        deltaPct := 0, sectionCount := 0, sections := [] } d]
  | g :: gs, d =>
    if g.file = d.file.getD "unknown" then addToFileGroup g d :: gs
    else g :: fileGroupBump gs d

/-- Descending `|delta|` comparator used for diff and group lists. -/
def groupAbsDeltaGE (a b : FileGroup) : Prop :=
  b.delta.natAbs ≤ a.delta.natAbs

instance : DecidableRel groupAbsDeltaGE :=
  fun a b => inferInstanceAs (Decidable (b.delta.natAbs ≤ a.delta.natAbs))

instance : IsTotal FileGroup groupAbsDeltaGE :=
  ⟨fun a b => le_total b.delta.natAbs a.delta.natAbs⟩

instance : IsTrans FileGroup groupAbsDeltaGE :=
  ⟨fun _ _ _ hab hbc => le_trans hbc hab⟩

/-- `computeFileGroups`: group diffs by file, recompute `deltaPct` from
the aggregated `sizeA`, sort by `|delta|` descending. -/
def computeFileGroups (diffs : List SectionDiff) : List FileGroup :=
  List.insertionSort groupAbsDeltaGE
    ((diffs.foldl fileGroupBump []).map (fun g =>
      { g with deltaPct :=
          if 0 < g.sizeA then round2 (((g.delta : ℚ) / (g.sizeA : ℚ)) * 100)
          else if 0 < g.sizeB then 100 else 0 }))

/-- Anomaly severity vocabulary of the summary comparer. -/
inductive AnomalySeverity
  | low
  | medium
  | high
deriving Repr, DecidableEq

inductive AnomalyType
  | sectionKind
  | fileKind
  | patternKind
deriving Repr, DecidableEq

/-- The anomaly "reasons" message strings, modelled by constructor with
the numeric payload of the message. -/
inductive SummaryReason
  | pctBreach (pct : ℚ)
  | byteBreach (bytes : Nat)
  | newLargeSection (size : Nat)
  | removedLargeSection (size : Nat)
  | smallIncreases (count : Nat)
  | largeFileChange (delta : Int)
  | bssGrowth (delta : Int)
deriving Repr, DecidableEq

structure Anomaly where
  type : AnomalyType
  name : String
  file : Option String := none
  severity : AnomalySeverity
  reasons : List SummaryReason
  delta : Int
  deltaPct : ℚ := 0
  affectedSections : Nat := 0
deriving Repr, DecidableEq

/-- Severity rank used by the final anomaly sort
(`{high: 3, medium: 2, low: 1}`). -/
def severityRank : AnomalySeverity → Nat
  | .high => 3
  | .medium => 2
  | .low => 1

/-- The anomaly sort comparator: severity rank descending, then
`|delta|` descending. -/
def anomalyGE (a b : Anomaly) : Prop :=
  severityRank b.severity < severityRank a.severity ∨
    (severityRank b.severity = severityRank a.severity ∧
      b.delta.natAbs ≤ a.delta.natAbs)

instance : DecidableRel anomalyGE := fun a b =>
  inferInstanceAs (Decidable
    (severityRank b.severity < severityRank a.severity ∨
      (severityRank b.severity = severityRank a.severity ∧
        b.delta.natAbs ≤ a.delta.natAbs)))

/-- Per-section anomaly pass of `detectAnomalies`. -/
def sectionAnomaly (thresholdPct : ℚ) (thresholdBytes : Nat)
    (d : SectionDiff) : Option Anomaly :=
  let reasons : List SummaryReason :=
    (if thresholdPct < |d.deltaPct| then [.pctBreach |d.deltaPct|] else []) ++
    (if thresholdBytes < d.delta.natAbs then [.byteBreach d.delta.natAbs]
     else []) ++
    (if d.status = .added ∧ thresholdBytes * 2 < d.sizeB then
      [.newLargeSection d.sizeB] else []) ++
    (if d.status = .removed ∧ thresholdBytes * 2 < d.sizeA then
      [.removedLargeSection d.sizeA] else [])
  if reasons.isEmpty then none
  else some
    { type := .sectionKind, name := d.name, file := d.file,
      severity :=
        if thresholdBytes * 10 < d.delta.natAbs then .high else .medium,
      reasons := reasons, delta := d.delta, deltaPct := d.deltaPct }

/-- Per-file-group anomaly pass of `detectAnomalies`. -/
def fileAnomaly (thresholdBytes : Nat) (diffs : List SectionDiff)
    (g : FileGroup) : Option Anomaly :=
  let smallIncreaseCount :=
    (diffs.filter (fun s =>
      s.file = some g.file ∧ 0 < s.delta ∧
        s.delta < (thresholdBytes : Int))).length
  let reasons : List SummaryReason :=
    (if 5 < smallIncreaseCount then [.smallIncreases smallIncreaseCount]
     else []) ++
    (if thresholdBytes * 5 < g.delta.natAbs then [.largeFileChange g.delta]
     else [])
  if reasons.isEmpty then none
  else some
    { type := .fileKind, name := g.file,
      severity :=
        if thresholdBytes * 20 < g.delta.natAbs then .high else .low,
      reasons := reasons, delta := g.delta, deltaPct := g.deltaPct,
      affectedSections := g.sectionCount }

/-- Global `.bss` growth pass of `detectAnomalies`. -/
def bssAnomaly (thresholdBytes : Nat) (diffs : List SectionDiff) :
    List Anomaly :=
  let bssSections := diffs.filter (fun s => jsStartsWith s.name ".bss")
  let totalBssDelta : Int :=
    bssSections.foldl (fun sum s => sum + s.delta) 0
  if (thresholdBytes * 5 : Int) < totalBssDelta then
    [{ type := .patternKind, name := ".bss sections", severity := .medium,
       reasons := [.bssGrowth totalBssDelta], delta := totalBssDelta,
       affectedSections :=
         (bssSections.filter (fun s => 0 < s.delta)).length }]
  else []

/-- `detectAnomalies`: the three passes, then sort by severity rank and
`|delta|` descending. -/
def detectAnomalies (diffs : List SectionDiff) (fileGroups : List FileGroup)
    (thresholdPct : ℚ) (thresholdBytes : Nat) : List Anomaly :=
  List.insertionSort anomalyGE
    ((diffs.filterMap (sectionAnomaly thresholdPct thresholdBytes)) ++
     (fileGroups.filterMap (fileAnomaly thresholdBytes diffs)) ++
     bssAnomaly thresholdBytes diffs)

/-- Flash total of one input: sections whose name starts with `.text`
or `.rodata`, sizes summed. -/
def totalFlash (secs : List MapSection) : Nat :=
  (secs.filter (fun s =>
    jsStartsWith s.name ".text" || jsStartsWith s.name ".rodata")).foldl
    (fun sum s => sum + s.size) 0

/-- RAM total of one input: sections whose name starts with `.data`
or `.bss`, sizes summed. -/
def totalRam (secs : List MapSection) : Nat :=
  (secs.filter (fun s =>
    jsStartsWith s.name ".data" || jsStartsWith s.name ".bss")).foldl
    (fun sum s => sum + s.size) 0

structure CompareSummary where
  totalFlashA : Nat
  totalFlashB : Nat
  totalRamA : Nat
  totalRamB : Nat
  flashDelta : Int
  flashDeltaPct : ℚ
  ramDelta : Int
  ramDeltaPct : ℚ
  totalSectionsA : Nat
  totalSectionsB : Nat
  sectionsAdded : Nat
  sectionsRemoved : Nat
  sectionsModified : Nat
deriving Repr, DecidableEq

/-- Descending-delta comparator `(a, b) => b.delta - a.delta`. -/
def deltaGE (a b : SectionDiff) : Prop := b.delta ≤ a.delta

instance : DecidableRel deltaGE :=
  fun a b => inferInstanceAs (Decidable (b.delta ≤ a.delta))

instance : IsTotal SectionDiff deltaGE := ⟨fun a b => le_total b.delta a.delta⟩

instance : IsTrans SectionDiff deltaGE := ⟨fun _ _ _ hab hbc => le_trans hbc hab⟩

/-- Descending-`|delta|` comparator for the final `sections` list. -/
def absDeltaGE (a b : SectionDiff) : Prop := b.delta.natAbs ≤ a.delta.natAbs

instance : DecidableRel absDeltaGE :=
  fun a b => inferInstanceAs (Decidable (b.delta.natAbs ≤ a.delta.natAbs))

instance : IsTotal SectionDiff absDeltaGE :=
  ⟨fun a b => le_total b.delta.natAbs a.delta.natAbs⟩

instance : IsTrans SectionDiff absDeltaGE :=
  ⟨fun _ _ _ hab hbc => le_trans hbc hab⟩

/-- `topIncreases`: sort all diffs by delta descending, keep the
positive ones, take the first `topN`. -/
def topIncreases (diffs : List SectionDiff) (topN : Nat) :
    List SectionDiff :=
  ((List.insertionSort deltaGE diffs).filter (fun d => 0 < d.delta)).take
    topN

/-- `topDecreases`: sort all diffs by delta descending, keep the
negative ones, reverse, take the first `topN`. -/
def topDecreases (diffs : List SectionDiff) (topN : Nat) :
    List SectionDiff :=
  (((List.insertionSort deltaGE diffs).filter
    (fun d => d.delta < 0)).reverse).take topN

structure CompareResult where
  summary : CompareSummary
  sections : List SectionDiff
  fileGroups : List FileGroup
  topIncreases : List SectionDiff
  topDecreases : List SectionDiff
  anomalies : List Anomaly
deriving Repr, DecidableEq

/-- `compareAnalyses`: the summary comparer. The `metadata` block
(wall-clock timestamp and echoed options) is not modelled. -/
def compareAnalyses (analysisA analysisB : ParsedResult)
    (opts : CompareOptions) : CompareResult :=
  let diffs := sectionDiffs analysisA analysisB opts
  let fileGroups := computeFileGroups diffs
  let totalFlashA := totalFlash analysisA.sections
  let totalFlashB := totalFlash analysisB.sections
  let totalRamA := totalRam analysisA.sections
  let totalRamB := totalRam analysisB.sections
  let flashDelta : Int := (totalFlashB : Int) - (totalFlashA : Int)
  let ramDelta : Int := (totalRamB : Int) - (totalRamA : Int)
  { summary :=
      { totalFlashA := totalFlashA
        totalFlashB := totalFlashB
        totalRamA := totalRamA
        totalRamB := totalRamB
        flashDelta := flashDelta
        flashDeltaPct :=
          if 0 < totalFlashA then
            round2 (((flashDelta : ℚ) / (totalFlashA : ℚ)) * 100)
          else 0
        ramDelta := ramDelta
        ramDeltaPct :=
          if 0 < totalRamA then
            round2 (((ramDelta : ℚ) / (totalRamA : ℚ)) * 100)
          else 0
        totalSectionsA := analysisA.sections.length
        totalSectionsB := analysisB.sections.length
        sectionsAdded := (diffs.filter (fun d => d.status = .added)).length
        sectionsRemoved :=
          (diffs.filter (fun d => d.status = .removed)).length
        sectionsModified :=
          (diffs.filter (fun d => d.status = .modified)).length }
    sections := List.insertionSort absDeltaGE diffs
    fileGroups := fileGroups
    topIncreases := topIncreases diffs opts.topN
    topDecreases := topDecreases diffs opts.topN
    anomalies := detectAnomalies diffs fileGroups opts.anomalyThresholdPct
      opts.anomalyThresholdBytes }

/-- Ascending-delta comparator, used only to state claim C2's reading
of `topDecreases`. -/
def deltaLE (a b : SectionDiff) : Prop := a.delta ≤ b.delta

instance : DecidableRel deltaLE :=
  fun a b => inferInstanceAs (Decidable (a.delta ≤ b.delta))

/-- Modelled from the spec's words (claim C2): "the top `topN`
negative-delta section diffs obtained by sorting by delta ascending and
then reversing": sort ascending by delta, keep negatives, reverse,
take `topN`. -/
def claimedTopDecreases (diffs : List SectionDiff) (topN : Nat) :
    List SectionDiff :=
  (((List.insertionSort deltaLE diffs).filter
    (fun d => d.delta < 0)).reverse).take topN

/-! ## VersionDiffer (`computeMemoryDiff`) -/

inductive DiffStatus
  | added
  | removed
  | growth
  | shrink
  | same
deriving Repr, DecidableEq

inductive Region
  | FLASH
  | RAM
  | OTHER
deriving Repr, DecidableEq

/-- `determineRegion`: region from the section-name prefix. -/
def determineRegion (sectionName : String) : Region :=
  if jsStartsWith sectionName ".text" || jsStartsWith sectionName ".rodata"
  then .FLASH
  else if jsStartsWith sectionName ".data" || jsStartsWith sectionName ".bss"
  then .RAM
  else .OTHER

inductive VSeverity
  | low
  | medium
  | high
  | critical
deriving Repr, DecidableEq

/-- `{critical: 4, high: 3, medium: 2, low: 1}`. -/
def vSeverityRank : VSeverity → Nat
  | .critical => 4
  | .high => 3
  | .medium => 2
  | .low => 1

/-- `determineSeverity(status, sizeDiffPct, sizeDiffAbs)`. -/
def determineSeverity (status : DiffStatus) (sizeDiffPct : ℚ)
    (sizeDiffAbs : Nat) : VSeverity :=
  if status = .added ∨ status = .removed then
    if 10240 < sizeDiffAbs then .critical else .high
  else if 50 < |sizeDiffPct| then .critical
  else if 25 < |sizeDiffPct| then .high
  else if 10 < |sizeDiffPct| then .medium
  else .low

structure DiffOptions where
  anomalyGrowthThreshold : ℚ := 10
  anomalyShrinkThreshold : ℚ := 10
  addressShiftThreshold : Int := 4096
deriving Repr

structure DiffEntry where
  name : String
  filePath : Option String
  sizeV1 : Nat
  sizeV2 : Nat
  sizeDiff : Int
  sizeDiffPct : ℚ
  addressV1 : Option String
  addressV2 : Option String
  addressDiff : Option Int
  addressShifted : Bool
  status : DiffStatus
  region : Region
deriving Repr, DecidableEq

/-- Alignment key `` `${s.name}:${s.filePath || ''}` ``. -/
def sectionKey (s : MapSection) : String :=
  s.name ++ ":" ++ s.filePath.getD ""

/-- Key-indexed `Map` lookup, last write wins. -/
def jsMapGetByKey (l : List MapSection) (k : String) : Option MapSection :=
  l.foldl (fun acc s => if sectionKey s = k then some s else acc) none

/-- Union of the two key sets, in JS `Set` insertion order. -/
def allDiffKeys (v1 v2 : ParsedResult) : List String :=
  jsSetDedup (v1.sections.map sectionKey ++ v2.sections.map sectionKey)

/-- `const [name] = key.split(':')`. -/
def keyName (k : String) : String :=
  String.mk ((splitOnChar ':' k.toList).headD [])

/-- `const [, filePath] = key.split(':')` followed by
`filePath || null` (missing or empty second field becomes null). -/
def keyFilePath (k : String) : Option String :=
  match (splitOnChar ':' k.toList).drop 1 with
  | [] => none
  | cs :: _ => if cs.isEmpty then none else some (String.mk cs)

/-- JS `parseInt(s, 16)`: skip whitespace, optional sign, optional
`0x`/`0X` prefix, then the longest hex-digit prefix; `none` models NaN
(no digits). -/
def parseIntHex (s : String) : Option Int :=
  let core : List Char → Option Nat := fun cs =>
    let cs' : List Char :=
      match cs with
      | '0' :: 'x' :: r => r
      | '0' :: 'X' :: r => r
      | _ => cs
    let ds := cs'.takeWhile isHexChar
    if ds.isEmpty then none else some (hexToNat ds)
  match s.toList.dropWhile isJsWs with
  | '-' :: rest => (core rest).map (fun n => -(n : Int))
  | '+' :: rest => (core rest).map (fun n => (n : Int))
  | cs => (core cs).map (fun n => (n : Int))

/-- The raw (unrounded) `sizeDiffPct` variable of the diff loop. -/
def rawSizeDiffPct (sizeV1 sizeV2 : Nat) : ℚ :=
  if 0 < sizeV1 then
    (((sizeV2 : Int) - (sizeV1 : Int) : Int) / (sizeV1 : ℚ)) * 100
  else if 0 < sizeV2 then 100 else 0

/-- The diff entry built for one key in the `computeMemoryDiff` loop.
`addressDiff` is `none` when either address is absent or unparseable
(JS `null` and `NaN` respectively, and both make `addressShifted`
false). -/
def mkDiffEntry (addressShiftThreshold : Int) (k : String)
    (v1 v2 : Option MapSection) : DiffEntry :=
  let sizeV1 : Nat := (v1.map (fun s => s.size)).getD 0
  let sizeV2 : Nat := (v2.map (fun s => s.size)).getD 0
  let sizeDiff : Int := (sizeV2 : Int) - (sizeV1 : Int)
  let status : DiffStatus :=
    if v1.isNone ∧ v2.isSome then .added
    else if v1.isSome ∧ v2.isNone then .removed
    else if 0 < sizeDiff then .growth
    else if sizeDiff < 0 then .shrink
    else .same
  let addrV1 := jsTruthyStr (v1.bind (fun s => s.address))
  let addrV2 := jsTruthyStr (v2.bind (fun s => s.address))
  let addressDiff : Option Int :=
    match addrV1, addrV2 with
    | some a1, some a2 =>
      match parseIntHex a1, parseIntHex a2 with
      | some n1, some n2 => some (n2 - n1)
      | _, _ => none
    | _, _ => none
  { name := keyName k
    filePath := keyFilePath k
    sizeV1 := sizeV1
    sizeV2 := sizeV2
    sizeDiff := sizeDiff
    sizeDiffPct := round2 (rawSizeDiffPct sizeV1 sizeV2)
    addressV1 := addrV1
    addressV2 := addrV2
    addressDiff := addressDiff
    addressShifted :=
      match addressDiff with
      | some d => addressShiftThreshold < |d|
      | none => false
    status := status
    region := determineRegion (keyName k) }

/-- The entry the diff loop produces for a given key. -/
def diffEntryFor (opts : DiffOptions) (v1 v2 : ParsedResult) (k : String) :
    DiffEntry :=
  mkDiffEntry opts.addressShiftThreshold k (jsMapGetByKey v1.sections k)
    (jsMapGetByKey v2.sections k)

/-- Version-diff anomaly reason messages, by constructor. -/
inductive VReason
  | newSection (size : Nat)
  | removedSection (size : Nat)
  | grewBy (pct : ℚ) (diff : Int)
  | shrunkBy (pct : ℚ) (diff : Nat)
  | addressShift (amount : Nat)
deriving Repr, DecidableEq

/-- The reason list accumulated for one diff entry. The growth/shrink
checks use the raw (unrounded) percentage variable, and the
added/removed checks use the flat `1024` byte threshold. -/
def vAnomalyReasons (opts : DiffOptions) (e : DiffEntry) : List VReason :=
  (if e.status = .added ∧ 1024 < e.sizeV2 then [.newSection e.sizeV2]
   else []) ++
  (if e.status = .removed ∧ 1024 < e.sizeV1 then [.removedSection e.sizeV1]
   else []) ++
  (if e.status = .growth ∧
      opts.anomalyGrowthThreshold < rawSizeDiffPct e.sizeV1 e.sizeV2 then
    [.grewBy (rawSizeDiffPct e.sizeV1 e.sizeV2) e.sizeDiff] else []) ++
  (if e.status = .shrink ∧
      opts.anomalyShrinkThreshold < |rawSizeDiffPct e.sizeV1 e.sizeV2| then
    [.shrunkBy |rawSizeDiffPct e.sizeV1 e.sizeV2| e.sizeDiff.natAbs]
   else []) ++
  (if e.addressShifted then [.addressShift (e.addressDiff.getD 0).natAbs]
   else [])

/-- A version-diff anomaly: the JS object spreads the diff entry's
fields and adds `reasons` and `severity`; here the entry is kept as a
nested field. -/
structure VAnomaly where
  entry : DiffEntry
  reasons : List VReason
  severity : VSeverity
deriving Repr, DecidableEq

/-- The anomaly (if any) produced for one key. -/
def vAnomalyFor (opts : DiffOptions) (v1 v2 : ParsedResult) (k : String) :
    Option VAnomaly :=
  let e := diffEntryFor opts v1 v2 k
  let reasons := vAnomalyReasons opts e
  if reasons.isEmpty then none
  else some
    { entry := e, reasons := reasons,
      severity := determineSeverity e.status
        (rawSizeDiffPct e.sizeV1 e.sizeV2) e.sizeDiff.natAbs }

structure DiffSummary where
  totalSectionsV1 : Nat
  totalSectionsV2 : Nat
  sectionsAdded : Nat
  sectionsRemoved : Nat
  sectionsGrowth : Nat
  sectionsShrink : Nat
  sectionsUnchanged : Nat
  totalSizeV1 : Nat
  totalSizeV2 : Nat
  totalSizeDiff : Int
  anomalyCount : Nat
  totalSizeDiffPct : ℚ
deriving Repr, DecidableEq

structure DiffResult where
  summary : DiffSummary
  diff : List DiffEntry
  anomalies : List VAnomaly
deriving Repr, DecidableEq

/-- Descending-`|sizeDiff|` comparator for the final diff list. -/
def entryAbsDiffGE (a b : DiffEntry) : Prop :=
  b.sizeDiff.natAbs ≤ a.sizeDiff.natAbs

instance : DecidableRel entryAbsDiffGE :=
  fun a b => inferInstanceAs (Decidable (b.sizeDiff.natAbs ≤ a.sizeDiff.natAbs))

/-- Severity-rank-descending comparator for the final anomaly list. -/
def vAnomalyGE (a b : VAnomaly) : Prop :=
  vSeverityRank b.severity ≤ vSeverityRank a.severity

instance : DecidableRel vAnomalyGE := fun a b =>
  inferInstanceAs (Decidable (vSeverityRank b.severity ≤ vSeverityRank a.severity))

/-- `computeMemoryDiff`: the version differ. The `metadata` block is not
modelled. -/
def computeMemoryDiff (analysisV1 analysisV2 : ParsedResult)
    (opts : DiffOptions) : DiffResult :=
  let keys := allDiffKeys analysisV1 analysisV2
  let diffResults := keys.map (diffEntryFor opts analysisV1 analysisV2)
  let anomalies := keys.filterMap (vAnomalyFor opts analysisV1 analysisV2)
  let totalSizeV1 : Nat :=
    analysisV1.sections.foldl (fun sum s => sum + s.size) 0
  let totalSizeV2 : Nat :=
    analysisV2.sections.foldl (fun sum s => sum + s.size) 0
  let totalSizeDiff : Int := (totalSizeV2 : Int) - (totalSizeV1 : Int)
  { summary :=
      { totalSectionsV1 := analysisV1.sections.length
        totalSectionsV2 := analysisV2.sections.length
        sectionsAdded :=
          (diffResults.filter (fun d => d.status = .added)).length
        sectionsRemoved :=
          (diffResults.filter (fun d => d.status = .removed)).length
        sectionsGrowth :=
          (diffResults.filter (fun d => d.status = .growth)).length
        sectionsShrink :=
          (diffResults.filter (fun d => d.status = .shrink)).length
        sectionsUnchanged :=
          (diffResults.filter (fun d => d.status = .same)).length
        totalSizeV1 := totalSizeV1
        totalSizeV2 := totalSizeV2
        totalSizeDiff := totalSizeDiff
        anomalyCount := anomalies.length
        totalSizeDiffPct :=
          if 0 < totalSizeV1 then
            round2 (((totalSizeDiff : ℚ) / (totalSizeV1 : ℚ)) * 100)
          else 0 }
    diff := List.insertionSort entryAbsDiffGE diffResults
    anomalies := List.insertionSort vAnomalyGE anomalies }

/-! ## ResultCache (`compareStorage.js`) -/

/-- A `StoredComparison` cache record. -/
structure CacheEntry (α : Type) where
  result : α
  expiresAt : Nat
  createdAt : Nat
deriving Repr, DecidableEq

/-- The in-memory `compareStore` `Map`, as an association list in
insertion order. -/
def CacheStore (α : Type) : Type := List (String × CacheEntry α)

/-- `Map.prototype.get`. -/
def cacheGet {α : Type} (store : CacheStore α) (id : String) :
    Option (CacheEntry α) :=
  (List.find? (fun kv => kv.1 = id) store).map (fun kv => kv.2)

/-- `Map.prototype.set`: overwrite in place, or append. -/
def cacheSet {α : Type} : CacheStore α → String → CacheEntry α →
    CacheStore α
  | [], id, e => [(id, e)]
  | kv :: rest, id, e =>
    if kv.1 = id then (kv.1, e) :: rest else kv :: cacheSet rest id e

/-- `cleanupExpired`: delete every entry with `now > expiresAt`. -/
def cleanupExpired {α : Type} (now : Nat) (store : CacheStore α) :
    CacheStore α :=
  List.filter (fun kv => decide (now ≤ kv.2.expiresAt)) store

/-- `DEFAULT_TTL` (24 hours in milliseconds). -/
def DEFAULT_TTL : Nat := 24 * 60 * 60 * 1000

/-- `storeComparison`: insert the entry with `expiresAt = now + ttl`,
run the lazy expiry sweep, and return the id. The random
`generateCompareId` is modelled by taking the fresh id as an argument;
the wall clock by the `now` argument. -/
def storeComparison {α : Type} (store : CacheStore α) (compareResult : α)
    (compareId : String) (now : Nat) (ttl : Nat := DEFAULT_TTL) :
    String × CacheStore α :=
  (compareId,
    cleanupExpired now
      (cacheSet store compareId
        { result := compareResult, expiresAt := now + ttl,
          createdAt := now }))

/-- `getComparison`: null on miss; on an expired entry, delete it and
return null (check-on-read); otherwise return the stored result. -/
def getComparison {α : Type} (store : CacheStore α) (compareId : String)
    (now : Nat) : Option α × CacheStore α :=
  match cacheGet store compareId with
  | none => (none, store)
  | some entry =>
    if entry.expiresAt < now then
      (none, List.filter (fun kv => !(kv.1 = compareId : Bool)) store)
    else (some entry.result, store)

/-- `deleteComparison`. -/
def deleteComparison {α : Type} (store : CacheStore α) (compareId : String) :
    CacheStore α :=
  List.filter (fun kv => !(kv.1 = compareId : Bool)) store

/-! ## Concrete fixtures used by witnesses and counterexamples -/

/-- Two-section baseline input. -/
def exA : ParsedResult :=
  { sections := [{ name := ".a", size := 3 }, { name := ".b", size := 3 }] }

/-- Two-section new input: `.a` shrinks by 1, `.b` shrinks by 2. -/
def exB : ParsedResult :=
  { sections := [{ name := ".a", size := 2 }, { name := ".b", size := 1 }] }

/-- Input with a duplicated section name (`.a` twice). -/
def exDupA : ParsedResult :=
  { sections := [{ name := ".a", size := 5 }, { name := ".a", size := 9 }] }

def exDupB : ParsedResult :=
  { sections := [{ name := ".a", size := 1 }] }

/-- Version-diff baseline with no sections. -/
def vEx1 : ParsedResult := { sections := [] }

/-- Version-diff new version with one 2000-byte `.bss.x` section. -/
def vEx2 : ParsedResult := { sections := [{ name := ".bss.x", size := 2000 }] }

/-- A small map-file text with two section lines. -/
def exMapContent : String :=
  ".text.main 0x00000778 0x00000c00  main.o\n.data 0x00000020 0x10"

/-- The parse of the first line of `exMapContent`. -/
def exSecText : MapSection :=
  { name := ".text.main", address := some "0x00000778", size := 3072,
    filePath := some "main.o" }

/-- The parse of the second line of `exMapContent`. -/
def exSecData : MapSection :=
  { name := ".data", address := some "0x00000020", size := 16,
    filePath := none }

/-! ## Lemmas about the JS primitives -/

theorem splitOnCharAux_ne_nil (sep : Char) (cs cur : List Char) :
    splitOnCharAux sep cs cur ≠ [] := by
  induction cs generalizing cur with
  | nil => simp [splitOnCharAux]
  | cons c cs ih =>
    by_cases h : c = sep
    · simp [splitOnCharAux, h]
    · simp only [splitOnCharAux, if_neg h]
      exact ih _

theorem joinWithChar_cons_of_ne_nil (sep : Char) (x : List Char)
    (xs : List (List Char)) (h : xs ≠ []) :
    joinWithChar sep (x :: xs) = x ++ sep :: joinWithChar sep xs := by
  cases xs with
  | nil => exact absurd rfl h
  | cons y ys => rfl

theorem joinWithChar_splitOnCharAux (sep : Char) :
    ∀ (cs cur : List Char),
      joinWithChar sep (splitOnCharAux sep cs cur) = cur.reverse ++ cs := by
  intro cs
  induction cs with
  | nil => intro cur; simp [splitOnCharAux, joinWithChar]
  | cons c cs ih =>
    intro cur
    by_cases h : c = sep
    · subst h
      have hsplit : splitOnCharAux c (c :: cs) cur =
          cur.reverse :: splitOnCharAux c cs [] := by
        simp [splitOnCharAux]
      rw [hsplit,
        joinWithChar_cons_of_ne_nil _ _ _ (splitOnCharAux_ne_nil _ _ _),
        ih []]
      simp
    · simp only [splitOnCharAux, if_neg h]
      rw [ih (c :: cur)]
      simp

theorem joinWithChar_splitOnChar (sep : Char) (cs : List Char) :
    joinWithChar sep (splitOnChar sep cs) = cs := by
  rw [splitOnChar, joinWithChar_splitOnCharAux]
  simp

theorem mem_foldl_setIns (l : List String) (acc : List String) (x : String) :
    x ∈ l.foldl (fun acc a => if a ∈ acc then acc else acc ++ [a]) acc ↔
      x ∈ acc ∨ x ∈ l := by
  induction l generalizing acc with
  | nil => simp
  | cons a t ih =>
    simp only [List.foldl_cons]
    by_cases h : a ∈ acc
    · rw [if_pos h, ih]
      constructor
      · rintro (hx | hx)
        · exact Or.inl hx
        · exact Or.inr (List.mem_cons_of_mem a hx)
      · rintro (hx | hx)
        · exact Or.inl hx
        · rcases List.mem_cons.mp hx with rfl | hx
          · exact Or.inl h
          · exact Or.inr hx
    · rw [if_neg h, ih]
      simp only [List.mem_append, List.mem_singleton, List.mem_cons]
      tauto

theorem mem_jsSetDedup (l : List String) (x : String) :
    x ∈ jsSetDedup l ↔ x ∈ l := by
  rw [jsSetDedup, mem_foldl_setIns]
  simp

theorem nodup_foldl_setIns (l : List String) :
    ∀ acc : List String, acc.Nodup →
      (l.foldl (fun acc a => if a ∈ acc then acc else acc ++ [a]) acc).Nodup := by
  induction l with
  | nil => intro acc h; simpa
  | cons a t ih =>
    intro acc h
    simp only [List.foldl_cons]
    by_cases ha : a ∈ acc
    · rw [if_pos ha]; exact ih _ h
    · rw [if_neg ha]
      refine ih _ ?_
      simp only [List.nodup_append, List.nodup_cons, List.not_mem_nil,
        not_false_iff, List.nodup_nil, and_true, true_and]
      exact ⟨h, by simpa using ha⟩

theorem nodup_jsSetDedup (l : List String) : (jsSetDedup l).Nodup :=
  nodup_foldl_setIns l [] (by simp)

theorem foldl_lastMatch {p : MapSection → Prop} [DecidablePred p]
    (l : List MapSection) :
    ∀ init, l.foldl (fun acc s => if p s then some s else acc) init =
      ((l.filter (fun s => p s)).getLast?).or init := by
  induction l with
  | nil => intro init; simp
  | cons s t ih =>
    intro init
    simp only [List.foldl_cons, List.filter_cons]
    by_cases h : p s
    · rw [if_pos h, ih (some s)]
      simp only [decide_eq_true_eq, h, if_true, List.getLast?_cons]
      cases hx : (t.filter (fun s => p s)).getLast? with
      | none => simp [hx]
      | some y => simp [hx]
    · rw [if_neg h, ih init]
      simp [h]

theorem jsMapGet_eq_getLast (l : List MapSection) (n : String) :
    jsMapGet l n = (l.filter (fun s => s.name = n)).getLast? := by
  rw [jsMapGet, foldl_lastMatch]
  simp

theorem round2_hundred : round2 100 = 100 := by
  have h : ((100 : ℚ) * 100) = ((10000 : ℤ) : ℚ) := by norm_num
  rw [round2, h, round_intCast]
  norm_num

theorem round2_zero : round2 0 = 0 := by
  have h : ((0 : ℚ) * 100) = ((0 : ℤ) : ℚ) := by norm_num
  rw [round2, h, round_intCast]
  norm_num

theorem foldl_add_size (l : List MapSection) :
    ∀ init : Nat, l.foldl (fun sum s => sum + s.size) init =
      init + (l.map (fun s => s.size)).sum := by
  induction l with
  | nil => intro init; simp
  | cons s t ih =>
    intro init
    simp only [List.foldl_cons, List.map_cons, List.sum_cons]
    rw [ih]
    omega

/-! ## Lemmas about the section aggregator -/

theorem aggBump_names (acc : List AggSection) (s : MapSection) :
    (aggBump acc s).map (fun g => g.name) =
      if parentName s.name ∈ acc.map (fun g => g.name) then
        acc.map (fun g => g.name)
      else acc.map (fun g => g.name) ++ [parentName s.name] := by
  induction acc with
  | nil => simp [aggBump]
  | cons g gs ih =>
    by_cases hg : g.name = parentName s.name
    · simp [aggBump, hg]
    · simp only [aggBump, if_neg hg, List.map_cons]
      rw [ih]
      by_cases hmem : parentName s.name ∈ gs.map (fun g => g.name)
      · rw [if_pos hmem, if_pos (by simp [List.mem_cons, hmem])]
      · rw [if_neg hmem, if_neg ?_]
        · simp
        · intro hor
          rcases List.mem_cons.mp hor with h1 | h1
          · exact hg h1.symm
          · exact hmem h1

theorem aggBump_find_none (acc : List AggSection) (s : MapSection)
    (h : acc.find? (fun g => g.name = parentName s.name) = none) :
    (aggBump acc s).find? (fun g => g.name = parentName s.name) =
      some { name := parentName s.name, size := s.size, subsections := 1,
             filePath := none } := by
  induction acc with
  | nil => simp [aggBump, List.find?]
  | cons g gs ih =>
    by_cases hg : g.name = parentName s.name
    · rw [List.find?_cons_of_pos _ (by simpa using hg)] at h
      cases h
    · rw [List.find?_cons_of_neg _ (by simpa using hg)] at h
      simp only [aggBump, if_neg hg]
      rw [List.find?_cons_of_neg _ (by simpa using hg)]
      exact ih h

theorem aggBump_find_some (acc : List AggSection) (s : MapSection)
    (g0 : AggSection)
    (h : acc.find? (fun g => g.name = parentName s.name) = some g0) :
    (aggBump acc s).find? (fun g => g.name = parentName s.name) =
      some { g0 with size := g0.size + s.size,
                     subsections := g0.subsections + 1 } := by
  induction acc with
  | nil => simp [List.find?] at h
  | cons g gs ih =>
    by_cases hg : g.name = parentName s.name
    · rw [List.find?_cons_of_pos _ (by simpa using hg)] at h
      injection h with h
      subst h
      simp only [aggBump, if_pos hg]
      exact List.find?_cons_of_pos _ (by simpa using hg)
    · rw [List.find?_cons_of_neg _ (by simpa using hg)] at h
      simp only [aggBump, if_neg hg]
      rw [List.find?_cons_of_neg _ (by simpa using hg)]
      exact ih h

theorem aggBump_find_ne (acc : List AggSection) (s : MapSection) (p : String)
    (hp : p ≠ parentName s.name) :
    (aggBump acc s).find? (fun g => g.name = p) =
      acc.find? (fun g => g.name = p) := by
  induction acc with
  | nil =>
    simp only [aggBump, List.find?]
    rw [decide_eq_false (fun h => hp h.symm)]
  | cons g gs ih =>
    by_cases hg : g.name = parentName s.name
    · have hgp : g.name ≠ p := fun hgpeq => hp (by rw [← hgpeq]; exact hg)
      simp only [aggBump, if_pos hg]
      rw [List.find?_cons_of_neg _ (by simpa using hgp),
        List.find?_cons_of_neg _ (by simpa using hgp)]
    · simp only [aggBump, if_neg hg]
      by_cases hgp : g.name = p
      · rw [List.find?_cons_of_pos _ (by simpa using hgp),
          List.find?_cons_of_pos _ (by simpa using hgp)]
      · rw [List.find?_cons_of_neg _ (by simpa using hgp),
          List.find?_cons_of_neg _ (by simpa using hgp)]
        exact ih

theorem agg_foldl_find (l : List MapSection) (p : String) :
    ((l.foldl aggBump []).find? (fun g => g.name = p)) =
      if l.filter (fun s => parentName s.name = p) = [] then none
      else some
        ⟨p,
         ((l.filter (fun s => parentName s.name = p)).map
           (fun s => s.size)).sum,
         (l.filter (fun s => parentName s.name = p)).length, none⟩ := by
  induction l using List.reverseRecOn with
  | nil => simp
  | append_singleton l s ih =>
    rw [List.foldl_append, List.foldl_cons, List.foldl_nil]
    by_cases hp : p = parentName s.name
    · subst hp
      have hfilterapp :
          (l ++ [s]).filter
              (fun s' => parentName s'.name = parentName s.name) =
            l.filter (fun s' => parentName s'.name = parentName s.name)
              ++ [s] := by
        rw [List.filter_append]
        simp
      by_cases hf :
          l.filter (fun s' => parentName s'.name = parentName s.name) = []
      · have hnone :
            (l.foldl aggBump []).find?
              (fun g => g.name = parentName s.name) = none := by
          rw [ih, if_pos hf]
        rw [aggBump_find_none _ _ hnone, hfilterapp, hf]
        simp
      · have hsome :
            (l.foldl aggBump []).find?
              (fun g => g.name = parentName s.name) =
              some
                ⟨parentName s.name,
                 ((l.filter
                   (fun s' => parentName s'.name = parentName s.name)).map
                   (fun s' => s'.size)).sum,
                 (l.filter
                   (fun s' => parentName s'.name = parentName s.name)).length,
                 none⟩ := by
          rw [ih, if_neg hf]
        rw [aggBump_find_some _ _ _ hsome, hfilterapp]
        have hne : l.filter
            (fun s' => parentName s'.name = parentName s.name) ++ [s] ≠ [] :=
          by simp
        rw [if_neg hne]
        simp
    · rw [aggBump_find_ne _ _ _ hp, ih]
      have hsame : (l ++ [s]).filter (fun s' => parentName s'.name = p) =
          l.filter (fun s' => parentName s'.name = p) := by
        rw [List.filter_append]
        simp only [List.filter_cons, List.filter_nil]
        rw [decide_eq_false (fun h => hp h.symm)]
        simp
      rw [hsame]

theorem agg_foldl_names_nodup (l : List MapSection) :
    ((l.foldl aggBump []).map (fun g => g.name)).Nodup := by
  induction l using List.reverseRecOn with
  | nil => simp
  | append_singleton l s ih =>
    rw [List.foldl_append, List.foldl_cons, List.foldl_nil, aggBump_names]
    by_cases h :
        parentName s.name ∈ (l.foldl aggBump []).map (fun g => g.name)
    · rwa [if_pos h]
    · rw [if_neg h]
      simp only [List.nodup_append, List.nodup_cons, List.not_mem_nil,
        not_false_iff, List.nodup_nil, and_true, true_and]
      exact ⟨ih, by simpa using h⟩

theorem find?_eq_of_mem_nodupNames :
    ∀ (L : List AggSection), (L.map (fun g => g.name)).Nodup →
      ∀ g ∈ L, L.find? (fun x => x.name = g.name) = some g := by
  intro L
  induction L with
  | nil => intro _ g hg; cases hg
  | cons x xs ih =>
    intro hnd g hg
    rcases List.mem_cons.mp hg with rfl | hg'
    · exact List.find?_cons_of_pos _ (by simp)
    · have hx : x.name ≠ g.name := by
        intro he
        have hmem : g.name ∈ xs.map (fun g => g.name) :=
          List.mem_map_of_mem _ hg'
        rw [List.map_cons] at hnd
        exact (List.nodup_cons.mp hnd).1 (he ▸ hmem)
      rw [List.find?_cons_of_neg _ (by simpa using hx)]
      rw [List.map_cons] at hnd
      exact ih (List.nodup_cons.mp hnd).2 g hg'

theorem aggBump_sum (acc : List AggSection) (s : MapSection) :
    ((aggBump acc s).map (fun g => g.size)).sum =
      (acc.map (fun g => g.size)).sum + s.size := by
  induction acc with
  | nil => simp [aggBump]
  | cons g gs ih =>
    by_cases hg : g.name = parentName s.name
    · simp only [aggBump, if_pos hg, List.map_cons, List.sum_cons]
      omega
    · simp only [aggBump, if_neg hg, List.map_cons, List.sum_cons, ih]
      omega

/-- C6: for every list of sections, the sum of the `size` fields over
`aggregateSections`' output equals the sum of the `size` fields over
its input — aggregation neither loses nor gains size. -/
theorem C6_agg_size_sum (l : List MapSection) :
    ((aggregateSections l).map (fun g => g.size)).sum =
      (l.map (fun s => s.size)).sum := by
  rw [aggregateSections,
    ((List.perm_insertionSort aggSizeGE (l.foldl aggBump [])).map
      (fun g => g.size)).sum_eq]
  induction l using List.reverseRecOn with
  | nil => simp
  | append_singleton l s ih =>
    rw [List.foldl_append, List.foldl_cons, List.foldl_nil, aggBump_sum, ih]
    simp

/-- C1 counterexample: on the input `[.text.main (10 bytes),
.text.main.cold (5 bytes)]` the aggregator produces no group named
`.text.main`, contradicting the claim that `.text.main` and
`.text.main.cold` both land in a group named `.text.main`. -/
theorem C1_counterexample :
    ¬ ∃ g ∈ aggregateSections
        [{ name := ".text.main", size := 10 },
         { name := ".text.main.cold", size := 5 }],
        g.name = ".text.main" := by
  decide

/-- C1 (amended): `aggregateSections` groups entries by
`name.split('.').slice(0, 2).join('.')` — for dot-prefixed names the
leading empty split field makes this `"."` + first segment, so
`.text.main`, `.text.main.cold` and `.text` all land in the single
group `.text`. Each group key occurs once; every input section lands
in the group of its key; a group's size is the sum of the sizes of its
members and its `subsections` field counts them; the aggregated
`filePath` is always null; and the frontend variant computes the same
key. -/
theorem C1_agg_grouping (l : List MapSection) :
    (∀ name, parentNameFrontend name = parentName name) ∧
    ((aggregateSections l).map (fun g => g.name)).Nodup ∧
    (∀ s ∈ l, ∃ g ∈ aggregateSections l, g.name = parentName s.name) ∧
    (∀ g ∈ aggregateSections l,
      g.filePath = none ∧
      g.size = ((l.filter (fun s => parentName s.name = g.name)).map
        (fun s => s.size)).sum ∧
      g.subsections =
        (l.filter (fun s => parentName s.name = g.name)).length) ∧
    (parentName ".text.main" = ".text" ∧
      parentName ".text.main.cold" = ".text" ∧
      parentName ".text" = ".text") := by
  have hmemsort : ∀ g, g ∈ aggregateSections l ↔ g ∈ l.foldl aggBump [] :=
    fun g => List.mem_insertionSort aggSizeGE
  have hnodup : ((aggregateSections l).map (fun g => g.name)).Nodup := by
    have hperm : List.Perm ((aggregateSections l).map (fun g => g.name))
        ((l.foldl aggBump []).map (fun g => g.name)) :=
      (List.perm_insertionSort aggSizeGE (l.foldl aggBump [])).map _
    exact hperm.nodup_iff.mpr (agg_foldl_names_nodup l)
  refine ⟨?_, hnodup, ?_, ?_, by decide⟩
  · intro name
    rw [parentNameFrontend, parentName]
    by_cases h : 2 < (splitOnChar '.' name.toList).length
    · rw [if_pos h]
    · rw [if_neg h]
      have htake : (splitOnChar '.' name.toList).take 2 =
          splitOnChar '.' name.toList :=
        List.take_of_length_le (Nat.le_of_not_lt h)
      rw [htake, joinWithChar_splitOnChar]
      cases name
      rfl
  · intro s hs
    have hmemfil : s ∈ l.filter (fun s' => parentName s'.name =
        parentName s.name) := List.mem_filter_of_mem hs (by simp)
    have hne : l.filter (fun s' => parentName s'.name = parentName s.name)
        ≠ [] := by
      intro h
      rw [h] at hmemfil
      cases hmemfil
    have hfind := agg_foldl_find l (parentName s.name)
    rw [if_neg hne] at hfind
    exact ⟨_, (hmemsort _).mpr (List.mem_of_find?_eq_some hfind), rfl⟩
  · intro g hg
    have hgf : g ∈ l.foldl aggBump [] := (hmemsort g).mp hg
    have hfound : (l.foldl aggBump []).find? (fun x => x.name = g.name) =
        some g :=
      find?_eq_of_mem_nodupNames _ (agg_foldl_names_nodup l) g hgf
    have hfind := agg_foldl_find l g.name
    by_cases hnil : l.filter (fun s => parentName s.name = g.name) = []
    · rw [if_pos hnil, hfound] at hfind
      cases hfind
    · rw [if_neg hnil, hfound] at hfind
      injection hfind with hfind
      rw [hfind]
      exact ⟨rfl, rfl, rfl⟩

/-- Witness for C1's amended theorem: the single section `.text.main`
lands in the group named `parentName ".text.main"`. -/
theorem C1_witness :
    ∃ g ∈ aggregateSections [{ name := ".text.main", size := 10 }],
      g.name = parentName ".text.main" :=
  (C1_agg_grouping [{ name := ".text.main", size := 10 }]).2.2.1
    { name := ".text.main", size := 10 } (by simp)

/-! ## MapFileParser claims -/

/-- C4: for every input text, every section in the parse result has
`size > 0`; the list is sorted descending by size (`Pairwise sizeGE`);
it is a permutation of the scan-order list; ties keep original scan
order (pair-stability of the sort); and parsing is deterministic. -/
theorem C4_parse_invariants (content : String) :
    (∀ s ∈ (parseMapFile content).sections, 0 < s.size) ∧
    (parseMapFile content).sections.Pairwise sizeGE ∧
    List.Perm (parseMapFile content).sections (scanSections content) ∧
    (∀ a b, List.Sublist [a, b] (scanSections content) → sizeGE a b →
      List.Sublist [a, b] (parseMapFile content).sections) ∧
    parseMapFile content = parseMapFile content := by
  refine ⟨?_, ?_, ?_, ?_, rfl⟩
  · intro s hs
    have hmem : s ∈ scanSections content :=
      (List.mem_insertionSort sizeGE).mp hs
    have hmem2 : s ∈ (((splitOnChar '\n' content.toList).map
        String.mk).filterMap matchSectionLine).filter
        (fun s => 0 < s.size) := hmem
    simpa using List.of_mem_filter hmem2
  · exact List.sorted_insertionSort sizeGE (scanSections content)
  · exact List.perm_insertionSort sizeGE (scanSections content)
  · intro a b hsub hab
    exact List.pair_sublist_insertionSort hab hsub

/-- Witness for C4 on a concrete two-line map text. -/
theorem C4_witness :
    List.Sublist [exSecText, exSecData] (scanSections exMapContent) ∧
    sizeGE exSecText exSecData ∧
    List.Sublist [exSecText, exSecData] (parseMapFile exMapContent).sections := by
  have hscan : scanSections exMapContent = [exSecText, exSecData] := by
    decide
  have hsub : List.Sublist [exSecText, exSecData] (scanSections exMapContent) := by
    rw [hscan]
  have hge : sizeGE exSecText exSecData := by decide
  exact ⟨hsub, hge,
    (C4_parse_invariants exMapContent).2.2.2.1 exSecText exSecData hsub hge⟩

/-! ## SummaryComparer claims -/

theorem mkSectionDiff_spec (n : String) (a b : Option MapSection) :
    ((mkSectionDiff n a b).status = SectionStatus.added ↔
      (mkSectionDiff n a b).sizeA = 0) ∧
    ((mkSectionDiff n a b).status = SectionStatus.removed ↔
      ((mkSectionDiff n a b).sizeB = 0 ∧ 0 < (mkSectionDiff n a b).sizeA)) ∧
    ((mkSectionDiff n a b).status = SectionStatus.modified ↔
      ((mkSectionDiff n a b).sizeA ≠ 0 ∧ (mkSectionDiff n a b).sizeB ≠ 0)) ∧
    ((mkSectionDiff n a b).sizeA = 0 → 0 < (mkSectionDiff n a b).sizeB →
      (mkSectionDiff n a b).deltaPct = 100) ∧
    ((mkSectionDiff n a b).sizeA = 0 → (mkSectionDiff n a b).sizeB = 0 →
      (mkSectionDiff n a b).deltaPct = 0) := by
  by_cases hsa : (a.map (fun s => s.size)).getD 0 = 0
  · by_cases hsb : (b.map (fun s => s.size)).getD 0 = 0
    · simp [mkSectionDiff, hsa, hsb, round2_zero]
    · simp [mkSectionDiff, hsa, hsb, round2_hundred, Nat.pos_of_ne_zero hsb]
  · by_cases hsb : (b.map (fun s => s.size)).getD 0 = 0
    · simp [mkSectionDiff, hsa, hsb, Nat.pos_of_ne_zero hsa]
    · simp [mkSectionDiff, hsa, hsb]

/-- C5: for every section diff produced by `compareAnalyses`, the
status is `added` exactly when `sizeA == 0`, `removed` exactly when
`sizeB == 0` and `sizeA > 0`, and `modified` otherwise; `deltaPct` is
100 when `sizeA == 0 < sizeB` and 0 when both sizes are 0. -/
theorem C5_status_classification (A B : ParsedResult)
    (opts : CompareOptions) (d : SectionDiff)
    (hd : d ∈ (compareAnalyses A B opts).sections) :
    (d.status = SectionStatus.added ↔ d.sizeA = 0) ∧
    (d.status = SectionStatus.removed ↔ (d.sizeB = 0 ∧ 0 < d.sizeA)) ∧
    (d.status = SectionStatus.modified ↔ (d.sizeA ≠ 0 ∧ d.sizeB ≠ 0)) ∧
    (d.sizeA = 0 → 0 < d.sizeB → d.deltaPct = 100) ∧
    (d.sizeA = 0 → d.sizeB = 0 → d.deltaPct = 0) := by
  have h0 : d ∈ List.insertionSort absDeltaGE (sectionDiffs A B opts) := hd
  have h1 : d ∈ sectionDiffs A B opts :=
    (List.mem_insertionSort absDeltaGE).mp h0
  have h2 : d ∈ (allSectionNames A B).map (fun n =>
      mkSectionDiff n (jsMapGet A.sections n) (jsMapGet B.sections n)) :=
    List.mem_of_mem_filter h1
  obtain ⟨n, _, hn⟩ := List.mem_map.mp h2
  subst hn
  exact mkSectionDiff_spec n _ _

/-- Witness for C5 at a concrete comparison. -/
theorem C5_witness :
    ∃ d ∈ (compareAnalyses exA exB {}).sections,
      (d.status = SectionStatus.removed ↔ (d.sizeB = 0 ∧ 0 < d.sizeA)) := by
  have hne : (compareAnalyses exA exB {}).sections ≠ [] := by decide
  exact ⟨_, List.head_mem hne,
    (C5_status_classification exA exB {} _ (List.head_mem hne)).2.1⟩

theorem sectionDiffs_self (A : ParsedResult) (opts : CompareOptions)
    (h : opts.includeUnchanged = false) :
    sectionDiffs A A opts = [] := by
  rw [sectionDiffs]
  apply List.filter_eq_nil_iff.mpr
  intro d hd
  obtain ⟨n, _, hn⟩ := List.mem_map.mp hd
  subst hn
  simp [mkSectionDiff, h]

/-- C7: comparing a parsed result with itself, with
`includeUnchanged = false`, yields an empty `sections` list and an
empty `anomalies` list. -/
theorem C7_compare_self (A : ParsedResult) (opts : CompareOptions)
    (h : opts.includeUnchanged = false) :
    (compareAnalyses A A opts).sections = [] ∧
    (compareAnalyses A A opts).anomalies = [] := by
  have hdiffs : sectionDiffs A A opts = [] := sectionDiffs_self A opts h
  have h5 : (0 : ℤ) ≤ (opts.anomalyThresholdBytes : ℤ) * 5 :=
    mul_nonneg (Int.natCast_nonneg _) (by norm_num)
  constructor
  · show List.insertionSort absDeltaGE (sectionDiffs A A opts) = []
    rw [hdiffs]
    rfl
  · show detectAnomalies (sectionDiffs A A opts)
      (computeFileGroups (sectionDiffs A A opts)) opts.anomalyThresholdPct
      opts.anomalyThresholdBytes = []
    rw [hdiffs]
    have hbss : bssAnomaly opts.anomalyThresholdBytes [] = [] := by
      rw [bssAnomaly]
      simp only [List.filter_nil, List.foldl_nil]
      rw [if_neg (not_lt.mpr h5)]
    simp [detectAnomalies, computeFileGroups, hbss]

/-- Witness for C7 at a concrete input with the default options. -/
theorem C7_witness :
    (compareAnalyses exA exA {}).sections = [] ∧
    (compareAnalyses exA exA {}).anomalies = [] :=
  C7_compare_self exA {} rfl

/-- C10: when an input contains several sections with the same name,
each distinct name yields at most one section diff (the mapped name
list is duplicate-free) whose sizes come from the last occurrence of
that name on each side, while `totalSectionsA`/`totalSectionsB` and
the flash/RAM totals are computed over the full input lists, duplicates
included. -/
theorem C10_duplicate_names (A B : ParsedResult) (opts : CompareOptions) :
    ((sectionDiffs A B opts).map (fun d => d.name)).Nodup ∧
    (∀ d ∈ sectionDiffs A B opts,
      d.sizeA = (((A.sections.filter (fun s => s.name = d.name)).getLast?).map
        (fun s => s.size)).getD 0 ∧
      d.sizeB = (((B.sections.filter (fun s => s.name = d.name)).getLast?).map
        (fun s => s.size)).getD 0) ∧
    (compareAnalyses A B opts).summary.totalSectionsA = A.sections.length ∧
    (compareAnalyses A B opts).summary.totalSectionsB = B.sections.length ∧
    (compareAnalyses A B opts).summary.totalFlashA =
      ((A.sections.filter (fun s => jsStartsWith s.name ".text" ||
        jsStartsWith s.name ".rodata")).map (fun s => s.size)).sum ∧
    (compareAnalyses A B opts).summary.totalRamA =
      ((A.sections.filter (fun s => jsStartsWith s.name ".data" ||
        jsStartsWith s.name ".bss")).map (fun s => s.size)).sum := by
  refine ⟨?_, ?_, rfl, rfl, ?_, ?_⟩
  · have hnames : ((allSectionNames A B).map (fun n =>
        mkSectionDiff n (jsMapGet A.sections n) (jsMapGet B.sections n))).map
        (fun d => d.name) = allSectionNames A B := by
      rw [List.map_map]
      have hcomp : ((fun d => d.name) ∘ fun n =>
          mkSectionDiff n (jsMapGet A.sections n) (jsMapGet B.sections n)) =
          id := funext fun n => rfl
      rw [hcomp, List.map_id]
    have hsub : List.Sublist
        ((sectionDiffs A B opts).map (fun d => d.name))
        (((allSectionNames A B).map (fun n =>
          mkSectionDiff n (jsMapGet A.sections n)
            (jsMapGet B.sections n))).map (fun d => d.name)) :=
      (List.filter_sublist _).map _
    rw [hnames] at hsub
    exact (nodup_jsSetDedup _).sublist hsub
  · intro d hd
    have h2 : d ∈ (allSectionNames A B).map (fun n =>
        mkSectionDiff n (jsMapGet A.sections n) (jsMapGet B.sections n)) :=
      List.mem_of_mem_filter hd
    obtain ⟨n, _, hn⟩ := List.mem_map.mp h2
    subst hn
    constructor
    · show ((jsMapGet A.sections n).map (fun s => s.size)).getD 0 =
        (((A.sections.filter (fun s => s.name = n)).getLast?).map
          (fun s => s.size)).getD 0
      rw [jsMapGet_eq_getLast]
    · show ((jsMapGet B.sections n).map (fun s => s.size)).getD 0 =
        (((B.sections.filter (fun s => s.name = n)).getLast?).map
          (fun s => s.size)).getD 0
      rw [jsMapGet_eq_getLast]
  · show totalFlash A.sections = _
    rw [totalFlash, foldl_add_size]
    simp
  · show totalRam A.sections = _
    rw [totalRam, foldl_add_size]
    simp

/-- Witness for C10 on an input whose `.a` name occurs twice (sizes 5
then 9): the diff's `sizeA` comes from the last occurrence. -/
theorem C10_witness :
    ∃ d ∈ sectionDiffs exDupA exDupB {},
      d.sizeA = (((exDupA.sections.filter
        (fun s => s.name = d.name)).getLast?).map (fun s => s.size)).getD 0 := by
  have hne : sectionDiffs exDupA exDupB {} ≠ [] := by decide
  exact ⟨_, List.head_mem hne,
    ((C10_duplicate_names exDupA exDupB {}).2.1 _ (List.head_mem hne)).1⟩

/-- C2 (amended): `topIncreases` is the positive-delta diffs in
descending delta order truncated to `topN`; `topDecreases` is the
negative-delta diffs in ascending delta order truncated to `topN` —
i.e. the code sorts descending, filters the negatives and reverses, so
the `topN` kept are the most negative (largest shrinks), largest shrink
first, not the list obtained by sorting ascending and then reversing.
No diff appears in both lists. -/
theorem C2_top_lists (A B : ParsedResult) (opts : CompareOptions) :
    (compareAnalyses A B opts).topIncreases =
      topIncreases (sectionDiffs A B opts) opts.topN ∧
    (compareAnalyses A B opts).topDecreases =
      topDecreases (sectionDiffs A B opts) opts.topN ∧
    (∀ d ∈ topIncreases (sectionDiffs A B opts) opts.topN, 0 < d.delta) ∧
    (topIncreases (sectionDiffs A B opts) opts.topN).Pairwise deltaGE ∧
    (∀ d ∈ sectionDiffs A B opts, 0 < d.delta →
      d ∉ topIncreases (sectionDiffs A B opts) opts.topN →
      ∀ e ∈ topIncreases (sectionDiffs A B opts) opts.topN,
        d.delta ≤ e.delta) ∧
    (∀ d ∈ topDecreases (sectionDiffs A B opts) opts.topN, d.delta < 0) ∧
    (topDecreases (sectionDiffs A B opts) opts.topN).Pairwise deltaLE ∧
    (∀ d ∈ sectionDiffs A B opts, d.delta < 0 →
      d ∉ topDecreases (sectionDiffs A B opts) opts.topN →
      ∀ e ∈ topDecreases (sectionDiffs A B opts) opts.topN,
        e.delta ≤ d.delta) ∧
    (∀ d ∈ topIncreases (sectionDiffs A B opts) opts.topN,
      d ∉ topDecreases (sectionDiffs A B opts) opts.topN) := by
  have hS : (List.insertionSort deltaGE (sectionDiffs A B opts)).Pairwise
      deltaGE := List.sorted_insertionSort deltaGE (sectionDiffs A B opts)
  have hF : ((List.insertionSort deltaGE (sectionDiffs A B opts)).filter
      (fun d => 0 < d.delta)).Pairwise deltaGE := hS.filter _
  have hG : ((List.insertionSort deltaGE (sectionDiffs A B opts)).filter
      (fun d => d.delta < 0)).Pairwise deltaGE := hS.filter _
  have hR : (((List.insertionSort deltaGE (sectionDiffs A B opts)).filter
      (fun d => d.delta < 0)).reverse).Pairwise deltaLE :=
    (List.pairwise_reverse.mpr hG).imp (fun h => h)
  have hincpos : ∀ d ∈ topIncreases (sectionDiffs A B opts) opts.topN,
      0 < d.delta := by
    intro d hd
    rw [topIncreases] at hd
    have := List.of_mem_filter (List.mem_of_mem_take hd)
    simpa using this
  have hdecneg : ∀ d ∈ topDecreases (sectionDiffs A B opts) opts.topN,
      d.delta < 0 := by
    intro d hd
    rw [topDecreases] at hd
    have hdr : d ∈ ((List.insertionSort deltaGE
        (sectionDiffs A B opts)).filter (fun d => d.delta < 0)).reverse :=
      List.mem_of_mem_take hd
    have := List.of_mem_filter (List.mem_reverse.mp hdr)
    simpa using this
  refine ⟨rfl, rfl, hincpos, ?_, ?_, hdecneg, ?_, ?_, ?_⟩
  · rw [topIncreases]
    exact hF.sublist (List.take_sublist _ _)
  · intro d hd hdpos hdnot e he
    rw [topIncreases] at hdnot he
    have hdS : d ∈ List.insertionSort deltaGE (sectionDiffs A B opts) :=
      (List.mem_insertionSort deltaGE).mpr hd
    have hdF : d ∈ (List.insertionSort deltaGE
        (sectionDiffs A B opts)).filter (fun d => 0 < d.delta) :=
      List.mem_filter_of_mem hdS (by simpa using hdpos)
    rw [← List.take_append_drop opts.topN ((List.insertionSort deltaGE
      (sectionDiffs A B opts)).filter (fun d => 0 < d.delta))] at hdF hF
    have hddrop : d ∈ ((List.insertionSort deltaGE
        (sectionDiffs A B opts)).filter (fun d => 0 < d.delta)).drop
        opts.topN := by
      rcases List.mem_append.mp hdF with h | h
      · exact absurd h hdnot
      · exact h
    exact (List.pairwise_append.mp hF).2.2 e he d hddrop
  · rw [topDecreases]
    exact hR.sublist (List.take_sublist _ _)
  · intro d hd hdneg hdnot e he
    rw [topDecreases] at hdnot he
    have hdS : d ∈ List.insertionSort deltaGE (sectionDiffs A B opts) :=
      (List.mem_insertionSort deltaGE).mpr hd
    have hdR : d ∈ ((List.insertionSort deltaGE
        (sectionDiffs A B opts)).filter (fun d => d.delta < 0)).reverse :=
      List.mem_reverse.mpr
        (List.mem_filter_of_mem hdS (by simpa using hdneg))
    rw [← List.take_append_drop opts.topN (((List.insertionSort deltaGE
      (sectionDiffs A B opts)).filter
        (fun d => d.delta < 0)).reverse)] at hdR hR
    have hddrop : d ∈ (((List.insertionSort deltaGE
        (sectionDiffs A B opts)).filter
        (fun d => d.delta < 0)).reverse).drop opts.topN := by
      rcases List.mem_append.mp hdR with h | h
      · exact absurd h hdnot
      · exact h
    exact (List.pairwise_append.mp hR).2.2 e he d hddrop
  · intro d hdinc hddec
    have h1 := hincpos d hdinc
    have h2 := hdecneg d hddec
    omega

/-- C2 counterexample: with deltas −1 (`.a`) and −2 (`.b`) and
`topN = 1`, the code returns `[.b]` (most negative first) while the
claim's "sort ascending then reverse, take topN" procedure returns
`[.a]`. -/
theorem C2_counterexample :
    (compareAnalyses exA exB { topN := 1 }).topDecreases ≠
      claimedTopDecreases (sectionDiffs exA exB { topN := 1 }) 1 := by
  intro h
  have hmaps := congrArg (List.map (fun d => d.name)) h
  have hne : ((compareAnalyses exA exB { topN := 1 }).topDecreases.map
      (fun d => d.name)) ≠
      ((claimedTopDecreases (sectionDiffs exA exB { topN := 1 }) 1).map
        (fun d => d.name)) := by decide
  exact hne hmaps

/-- Witness for C2's amended theorem at the concrete comparison. -/
theorem C2_witness :
    ∃ d ∈ topDecreases (sectionDiffs exA exB { topN := 1 }) 1,
      d.delta < 0 := by
  have hne : topDecreases (sectionDiffs exA exB { topN := 1 }) 1 ≠ [] := by
    decide
  exact ⟨_, List.head_mem hne,
    (C2_top_lists exA exB { topN := 1 }).2.2.2.2.2.1 _ (List.head_mem hne)⟩

/-! ## VersionDiffer claims -/

theorem mkDiffEntry_swap (t : Int) (k : String) (o1 o2 : Option MapSection) :
    (mkDiffEntry t k o1 o2).name = (mkDiffEntry t k o2 o1).name ∧
    (mkDiffEntry t k o1 o2).filePath = (mkDiffEntry t k o2 o1).filePath ∧
    (mkDiffEntry t k o1 o2).sizeV1 = (mkDiffEntry t k o2 o1).sizeV2 ∧
    (mkDiffEntry t k o1 o2).sizeV2 = (mkDiffEntry t k o2 o1).sizeV1 ∧
    (mkDiffEntry t k o1 o2).sizeDiff = -(mkDiffEntry t k o2 o1).sizeDiff ∧
    ((mkDiffEntry t k o1 o2).status = DiffStatus.added ↔
      (mkDiffEntry t k o2 o1).status = DiffStatus.removed) ∧
    ((mkDiffEntry t k o1 o2).status = DiffStatus.removed ↔
      (mkDiffEntry t k o2 o1).status = DiffStatus.added) := by
  refine ⟨rfl, rfl, rfl, rfl, (neg_sub _ _).symm, ?_, ?_⟩ <;>
    cases o1 <;> cases o2 <;>
      simp only [mkDiffEntry, Option.isNone_none, Option.isNone_some,
        Option.isSome_none, Option.isSome_some, Option.map_none,
        Option.map_some, Option.getD_none, Option.getD_some] <;>
      split_ifs <;> simp_all

/-- C3: `computeMemoryDiff(A, B)` and `computeMemoryDiff(B, A)` cover
the same set of `name:filePath` alignment keys; the diff list is (up to
the final `|sizeDiff|` sort) the per-key entry list; and for every key
the two entries have `sizeV1`/`sizeV2` swapped, `sizeDiff` negated, the
same `name`/`filePath`, and status `added` in one direction exactly
when it is `removed` in the other. -/
theorem C3_diff_symmetry (A B : ParsedResult) (opts : DiffOptions) :
    (∀ k, k ∈ allDiffKeys A B ↔ k ∈ allDiffKeys B A) ∧
    List.Perm (computeMemoryDiff A B opts).diff
      ((allDiffKeys A B).map (diffEntryFor opts A B)) ∧
    (∀ k,
      (diffEntryFor opts A B k).name = (diffEntryFor opts B A k).name ∧
      (diffEntryFor opts A B k).filePath =
        (diffEntryFor opts B A k).filePath ∧
      (diffEntryFor opts A B k).sizeV1 = (diffEntryFor opts B A k).sizeV2 ∧
      (diffEntryFor opts A B k).sizeV2 = (diffEntryFor opts B A k).sizeV1 ∧
      (diffEntryFor opts A B k).sizeDiff =
        -(diffEntryFor opts B A k).sizeDiff ∧
      ((diffEntryFor opts A B k).status = DiffStatus.added ↔
        (diffEntryFor opts B A k).status = DiffStatus.removed) ∧
      ((diffEntryFor opts A B k).status = DiffStatus.removed ↔
        (diffEntryFor opts B A k).status = DiffStatus.added)) := by
  refine ⟨?_, ?_, ?_⟩
  · intro k
    rw [allDiffKeys, allDiffKeys, mem_jsSetDedup, mem_jsSetDedup,
      List.mem_append, List.mem_append]
    exact or_comm
  · show List.Perm (List.insertionSort entryAbsDiffGE
      ((allDiffKeys A B).map (diffEntryFor opts A B))) _
    exact List.perm_insertionSort _ _
  · intro k
    exact mkDiffEntry_swap opts.addressShiftThreshold k _ _

theorem mkDiffEntry_status_added_iff (t : Int) (k : String)
    (o1 o2 : Option MapSection) :
    (mkDiffEntry t k o1 o2).status = DiffStatus.added ↔
      (o1 = none ∧ ∃ s, o2 = some s) := by
  cases o1 <;> cases o2 <;> simp [mkDiffEntry] <;> split_ifs <;> simp_all

theorem mkDiffEntry_status_removed_iff (t : Int) (k : String)
    (o1 o2 : Option MapSection) :
    (mkDiffEntry t k o1 o2).status = DiffStatus.removed ↔
      ((∃ s, o1 = some s) ∧ o2 = none) := by
  cases o1 <;> cases o2 <;> simp [mkDiffEntry] <;> split_ifs <;> simp_all

theorem vAnomalyReasons_added (opts : DiffOptions) (t : Int) (k : String)
    (s : MapSection) :
    vAnomalyReasons opts (mkDiffEntry t k none (some s)) =
      if 1024 < s.size then [VReason.newSection s.size] else [] := by
  have hstatus : (mkDiffEntry t k none (some s)).status =
      DiffStatus.added := by
    simp [mkDiffEntry]
  have hshift : (mkDiffEntry t k none (some s)).addressShifted = false := by
    simp [mkDiffEntry, jsTruthyStr]
  have hs2 : (mkDiffEntry t k none (some s)).sizeV2 = s.size := rfl
  rw [vAnomalyReasons]
  simp [hstatus, hshift, hs2]

theorem vAnomalyReasons_removed (opts : DiffOptions) (t : Int) (k : String)
    (s : MapSection) :
    vAnomalyReasons opts (mkDiffEntry t k (some s) none) =
      if 1024 < s.size then [VReason.removedSection s.size] else [] := by
  have hstatus : (mkDiffEntry t k (some s) none).status =
      DiffStatus.removed := by
    simp [mkDiffEntry]
  have hshift : (mkDiffEntry t k (some s) none).addressShifted = false := by
    rcases htr : jsTruthyStr (Option.bind (some s) (fun s => s.address))
      with _ | a1 <;> simp [mkDiffEntry, jsTruthyStr, htr]
  have hs1 : (mkDiffEntry t k (some s) none).sizeV1 = s.size := rfl
  rw [vAnomalyReasons]
  simp [hstatus, hshift, hs1]

theorem vAnomalyFor_eq (opts : DiffOptions) (v1 v2 : ParsedResult)
    (k : String) :
    vAnomalyFor opts v1 v2 k =
      if (vAnomalyReasons opts (diffEntryFor opts v1 v2 k)).isEmpty then none
      else some
        ⟨diffEntryFor opts v1 v2 k,
         vAnomalyReasons opts (diffEntryFor opts v1 v2 k),
         determineSeverity (diffEntryFor opts v1 v2 k).status
           (rawSizeDiffPct (diffEntryFor opts v1 v2 k).sizeV1
             (diffEntryFor opts v1 v2 k).sizeV2)
           (diffEntryFor opts v1 v2 k).sizeDiff.natAbs⟩ := rfl

/-- C8: a `New section` anomaly reason is raised for an added entry
exactly when `sizeV2 > 1024` (flat threshold, independent of the
options), symmetrically for removed entries with `sizeV1`; added and
removed anomalies get severity `critical` when `|sizeDiff| > 10240` and
`high` otherwise; and concretely a `.bss.x` section present only in v2
with size 2000 yields status `added`, region `RAM`, a `New section`
reason and severity `high`. -/
theorem C8_version_anomalies (v1 v2 : ParsedResult) (opts : DiffOptions)
    (k : String) :
    ((diffEntryFor opts v1 v2 k).status = DiffStatus.added →
      ((∃ a, vAnomalyFor opts v1 v2 k = some a ∧
        VReason.newSection (diffEntryFor opts v1 v2 k).sizeV2 ∈ a.reasons) ↔
        1024 < (diffEntryFor opts v1 v2 k).sizeV2)) ∧
    ((diffEntryFor opts v1 v2 k).status = DiffStatus.removed →
      ((∃ a, vAnomalyFor opts v1 v2 k = some a ∧
        VReason.removedSection (diffEntryFor opts v1 v2 k).sizeV1 ∈
          a.reasons) ↔ 1024 < (diffEntryFor opts v1 v2 k).sizeV1)) ∧
    (((diffEntryFor opts v1 v2 k).status = DiffStatus.added ∨
      (diffEntryFor opts v1 v2 k).status = DiffStatus.removed) →
      ∀ a, vAnomalyFor opts v1 v2 k = some a →
        a.severity = (if 10240 < (diffEntryFor opts v1 v2 k).sizeDiff.natAbs
          then VSeverity.critical else VSeverity.high)) ∧
    ((computeMemoryDiff vEx1 vEx2 {}).diff.map
        (fun e => (e.name, e.status, e.region)) =
      [(".bss.x", DiffStatus.added, Region.RAM)] ∧
      (computeMemoryDiff vEx1 vEx2 {}).anomalies.map
        (fun a => (a.reasons, a.severity)) =
      [([VReason.newSection 2000], VSeverity.high)]) := by
  refine ⟨?_, ?_, ?_, by decide, by decide⟩
  · intro h
    obtain ⟨ho1, s, hs⟩ := (mkDiffEntry_status_added_iff
      opts.addressShiftThreshold k (jsMapGetByKey v1.sections k)
      (jsMapGetByKey v2.sections k)).mp h
    have hE : diffEntryFor opts v1 v2 k =
        mkDiffEntry opts.addressShiftThreshold k none (some s) := by
      rw [diffEntryFor, ho1, hs]
    rw [vAnomalyFor_eq, hE, vAnomalyReasons_added]
    have hs2 : (mkDiffEntry opts.addressShiftThreshold k none
        (some s)).sizeV2 = s.size := rfl
    rw [hs2]
    by_cases hsz : 1024 < s.size
    · rw [if_pos hsz]
      simp only [List.isEmpty_cons, if_false, Bool.false_eq_true]
      constructor
      · intro _
        exact hsz
      · intro _
        exact ⟨_, rfl, by simp⟩
    · rw [if_neg hsz]
      simp only [List.isEmpty_nil, if_true]
      constructor
      · rintro ⟨a, ha, _⟩
        cases ha
      · intro hc
        exact absurd hc hsz
  · intro h
    obtain ⟨⟨s, hs⟩, ho2⟩ := (mkDiffEntry_status_removed_iff
      opts.addressShiftThreshold k (jsMapGetByKey v1.sections k)
      (jsMapGetByKey v2.sections k)).mp h
    have hE : diffEntryFor opts v1 v2 k =
        mkDiffEntry opts.addressShiftThreshold k (some s) none := by
      rw [diffEntryFor, ho2, hs]
    rw [vAnomalyFor_eq, hE, vAnomalyReasons_removed]
    have hs1 : (mkDiffEntry opts.addressShiftThreshold k (some s)
        none).sizeV1 = s.size := rfl
    rw [hs1]
    by_cases hsz : 1024 < s.size
    · rw [if_pos hsz]
      simp only [List.isEmpty_cons, if_false, Bool.false_eq_true]
      constructor
      · intro _
        exact hsz
      · intro _
        exact ⟨_, rfl, by simp⟩
    · rw [if_neg hsz]
      simp only [List.isEmpty_nil, if_true]
      constructor
      · rintro ⟨a, ha, _⟩
        cases ha
      · intro hc
        exact absurd hc hsz
  · intro hor a ha
    rw [vAnomalyFor_eq] at ha
    by_cases hre : (vAnomalyReasons opts (diffEntryFor opts v1 v2 k)).isEmpty
    · rw [if_pos hre] at ha
      cases ha
    · rw [if_neg hre] at ha
      injection ha with ha
      rw [← ha]
      show determineSeverity (diffEntryFor opts v1 v2 k).status _ _ = _
      rw [determineSeverity, if_pos hor]

/-- Witness for C8 at the concrete `.bss.x` scenario key. -/
theorem C8_witness :
    ∃ a, vAnomalyFor {} vEx1 vEx2 ".bss.x:" = some a ∧
      VReason.newSection (diffEntryFor {} vEx1 vEx2 ".bss.x:").sizeV2 ∈
        a.reasons := by
  have hst : (diffEntryFor {} vEx1 vEx2 ".bss.x:").status =
      DiffStatus.added := by decide
  have hsz : 1024 < (diffEntryFor {} vEx1 vEx2 ".bss.x:").sizeV2 := by decide
  exact ((C8_version_anomalies vEx1 vEx2 {} ".bss.x:").1 hst).mpr hsz

/-! ## ResultCache claims -/

theorem cacheGet_cacheSet {α : Type} (store : CacheStore α) (id : String)
    (e : CacheEntry α) : cacheGet (cacheSet store id e) id = some e := by
  induction store with
  | nil =>
    rw [cacheSet, cacheGet, List.find?_cons_of_pos _ (by simp)]
    rfl
  | cons kv rest ih =>
    simp only [cacheSet]
    by_cases h : kv.1 = id
    · rw [if_pos h, cacheGet, List.find?_cons_of_pos _ (by simp [h])]
      rfl
    · rw [if_neg h, cacheGet, List.find?_cons_of_neg _ (by simp [h])]
      exact ih

theorem cacheGet_filter_keep {α : Type} (store : CacheStore α) (id : String)
    (e : CacheEntry α) (p : String × CacheEntry α → Bool)
    (hfound : cacheGet store id = some e) (hp : p (id, e) = true) :
    cacheGet (store.filter p) id = some e := by
  induction store with
  | nil => simp [cacheGet] at hfound
  | cons kv rest ih =>
    by_cases h : kv.1 = id
    · rw [cacheGet, List.find?_cons_of_pos _ (by simp [h])] at hfound
      injection hfound with h2
      obtain ⟨k1, v⟩ := kv
      simp only at h h2
      subst h
      subst h2
      rw [List.filter_cons, if_pos hp, cacheGet,
        List.find?_cons_of_pos _ (by simp)]
      rfl
    · rw [cacheGet, List.find?_cons_of_neg _ (by simp [h])] at hfound
      have hih := ih hfound
      rw [List.filter_cons]
      by_cases hpk : p kv
      · rw [if_pos hpk, cacheGet, List.find?_cons_of_neg _ (by simp [h])]
        exact hih
      · rw [if_neg hpk]
        exact hih

theorem cacheGet_filter_out {α : Type} (store : CacheStore α) (id : String) :
    cacheGet (store.filter (fun kv => !(kv.1 = id : Bool))) id = none := by
  have hnone : List.find? (fun kv => kv.1 = id)
      (store.filter (fun kv => !(kv.1 = id : Bool))) = none := by
    apply List.find?_eq_none.mpr
    intro x hx
    have hkeep := List.of_mem_filter hx
    simp only [Bool.not_eq_true', decide_eq_false_iff_not] at hkeep
    simp [hkeep]
  rw [cacheGet, hnone]
  rfl

/-- C9: storing a result and immediately fetching it with the returned
id yields exactly the stored result; and for any entry whose
`expiresAt` lies before the time of the read, `get` returns null and
evicts that entry (check-on-read). -/
theorem C9_cache (α : Type) (store : CacheStore α) (result : α)
    (id : String) (now ttl : Nat) :
    ((getComparison (storeComparison store result id now ttl).2
      (storeComparison store result id now ttl).1 now).1 = some result) ∧
    (∀ (store' : CacheStore α) (id' : String) (now' : Nat)
      (e : CacheEntry α), cacheGet store' id' = some e →
      e.expiresAt < now' →
      (getComparison store' id' now').1 = none ∧
      cacheGet ((getComparison store' id' now').2) id' = none) := by
  constructor
  · show (getComparison (cleanupExpired now (cacheSet store id
      ⟨result, now + ttl, now⟩)) id now).1 = some result
    have hset : cacheGet (cacheSet store id ⟨result, now + ttl, now⟩) id =
        some ⟨result, now + ttl, now⟩ := cacheGet_cacheSet _ _ _
    have hkeep : cacheGet (cleanupExpired now (cacheSet store id
        ⟨result, now + ttl, now⟩)) id = some ⟨result, now + ttl, now⟩ := by
      rw [cleanupExpired]
      exact cacheGet_filter_keep _ _ _ _ hset (by simp)
    simp only [getComparison, hkeep]
    rw [if_neg (by omega)]
  · intro store' id' now' e hfound hexp
    constructor
    · simp only [getComparison, hfound]
      rw [if_pos hexp]
    · simp only [getComparison, hfound]
      rw [if_pos hexp]
      exact cacheGet_filter_out store' id'

/-- Witness for C9: an entry that expired at time 5 read at time 10 is
reported as null and evicted. -/
theorem C9_witness :
    (getComparison [("a", (⟨7, 5, 0⟩ : CacheEntry Nat))] "a" 10).1 = none ∧
    cacheGet ((getComparison [("a", (⟨7, 5, 0⟩ : CacheEntry Nat))]
      "a" 10).2) "a" = none :=
  (C9_cache Nat [] 7 "x" 0 0).2
    [("a", ⟨7, 5, 0⟩)] "a" 10 ⟨7, 5, 0⟩ (by decide) (by decide)
